import Mathlib

/-!
# Verification of the `cfgio` configuration-composition library

Shallow embedding of `src/lib.rs`: the `Environment` enum (strum
`EnumString`/`Display`, snake_case), the `Config`/`ConfigBuilder` pair
(derive_builder, every field defaulted), and `ConfigBuilder::build`, which
resolves the deployment environment from a process environment variable,
derives a file path `<cwd>/<config_directory>/<environment>`, layers a file
source and an environment-variable source (the `config` crate), deep-merges
them and deserializes the merged schema.

Ambient process state (environment-variable table, working directory,
filesystem) is passed explicitly, so composition is a pure function of the
builder plus that state.  The external collaborators (file-format parsing,
typed deserialization) are parameters: the filesystem maps a path to
`none` (absent), a parse failure, or a parsed key-value tree; the
deserializer maps the merged tree to `Option T`.
-/

set_option autoImplicit false

namespace Cfgio

/-- The `Environment` enum from `src/lib.rs`: `#[derive(EnumString, Display,
Default)]`, `#[strum(serialize_all = "snake_case")]`, variants `Local`
(the `#[default]`) and `Production`. -/
inductive Environment where
  | Local
  | Production
  deriving DecidableEq, Repr

/-- `Environment::default()` — the `#[default]` variant, `Local`. -/
def Environment.defaultEnv : Environment := .Local

/-- strum's `Display` with `serialize_all = "snake_case"`: each variant is
rendered as its lowercase snake-case token. -/
def Environment.toString : Environment → String
  | .Local => "local"
  | .Production => "production"

/-- strum's `EnumString` (`FromStr`) with `serialize_all = "snake_case"`:
exact, case-sensitive match against the serialized variant names; any other
string is a parse error (`none`). -/
def Environment.fromStr (s : String) : Option Environment :=
  if s = "local" then some .Local
  else if s = "production" then some .Production
  else none

/-- The `Reason` error enum from `src/lib.rs`. -/
inductive Reason where
  | environmentVariableParsing (value : String)
  | workingDirectoryAccess
  | preparation
  | composeSchema
  | deserialization
  deriving DecidableEq, Repr

/-- `pub struct Error(pub Reason)`. -/
structure Error where
  reason : Reason
  deriving DecidableEq, Repr

/-- The finalized `Config` record.  Field names follow `src/lib.rs`; the two
fields whose Rust names are `environment_variables_source_prefix` and
`environment_variables_source_prefix_separator` are abbreviated here with
`pfx` for "prefix". -/
structure Config where
  environment_variable_name : String
  config_directory : String
  environment_variables_source_pfx : String
  environment_variables_source_pfx_separator : String
  environment_variables_source_separator : String
  deriving DecidableEq, Repr

/-- The derive_builder-generated `ConfigBuilder`: one `Option` per field,
`none` meaning the setter was never called. -/
structure ConfigBuilder where
  environment_variable_name : Option String := none
  config_directory : Option String := none
  environment_variables_source_pfx : Option String := none
  environment_variables_source_pfx_separator : Option String := none
  environment_variables_source_separator : Option String := none
  deriving DecidableEq, Repr

/-- The payload of the generated `prepare`: each field with
`#[builder(default = d)]` finalizes to the set value if present, else `d`. -/
def ConfigBuilder.finalize (b : ConfigBuilder) : Config where
  environment_variable_name := b.environment_variable_name.getD "APP_ENV"
  config_directory := b.config_directory.getD "config"
  environment_variables_source_pfx :=
    b.environment_variables_source_pfx.getD "APP"
  environment_variables_source_pfx_separator :=
    b.environment_variables_source_pfx_separator.getD "_"
  environment_variables_source_separator :=
    b.environment_variables_source_separator.getD "__"

/-- derive_builder's generated `build_fn` (renamed `prepare`, private):
returns `Err(UninitializedField)` only for a field that has no
`#[builder(default)]`; every field of `Config` carries a default, so the
generated body is a single `Ok` of the finalized record. -/
def ConfigBuilder.prepare (b : ConfigBuilder) : Except Error Config :=
  .ok b.finalize

/-- Result of `std::env::var`: `Ok(value)`, or `Err(NotPresent)` /
`Err(NotUnicode(..))`. -/
inductive VarResult where
  | present (value : String)
  | notPresent
  | notUnicode
  deriving DecidableEq, Repr

/-- The environment-resolution step of `ConfigBuilder::build`:
`match std::env::var(name) { Ok(env) => env.parse() (error carries the raw
string), Err(_) => Environment::default() }`.  Both `NotPresent` and
`NotUnicode` take the `Err(_)` arm. -/
def resolveEnvironment (r : VarResult) : Except Error Environment :=
  match r with
  | .present s =>
    match Environment.fromStr s with
    | some e => .ok e
    | none => .error ⟨.environmentVariableParsing s⟩
  | .notPresent => .ok Environment.defaultEnv
  | .notUnicode => .ok Environment.defaultEnv

/-- `str::starts_with` on character lists. -/
def strStartsWith (p s : String) : Bool :=
  p.data.isPrefixOf s.data

/-- `str::to_lowercase`, restricted to the ASCII lowering that the
configuration keys here use. -/
def strToLower (s : String) : String :=
  ⟨s.data.map Char.toLower⟩

/-- Worker for `replaceList`: each step consumes one unit of fuel and at
least one character, so fuel equal to the list length always suffices and
the out-of-fuel branch is unreachable. -/
def replaceListAux (pat repl : List Char) : Nat → List Char → List Char
  | 0, l => l
  | _ + 1, [] => []
  | fuel + 1, c :: rest =>
    if pat.isPrefixOf (c :: rest) then
      repl ++ replaceListAux pat repl fuel (rest.drop (pat.length - 1))
    else
      c :: replaceListAux pat repl fuel rest

/-- `str::replace pattern replacement` on character lists; the callers
below only use it with a non-empty pattern. -/
def replaceList (pat repl l : List Char) : List Char :=
  replaceListAux pat repl l.length l

/-- Splitting a character list at every occurrence of one character, the
`config` crate's dotted-path parse. -/
def splitOnChar (c : Char) : List Char → List (List Char)
  | [] => [[]]
  | x :: rest =>
    match splitOnChar c rest with
    | [] => if x = c then [[], []] else [[x]]
    | h :: t => if x = c then [] :: h :: t else (x :: h) :: t

/-- `PathBuf::join` on Unix-style string paths: an absolute right operand
replaces the accumulated path, otherwise it is appended after a `/`. -/
def pathJoin (a b : String) : String :=
  if strStartsWith "/" b then b else a ++ "/" ++ b

mutual
/-- A value of the `config` crate's merged schema: a scalar (environment
variables and the file leaves used here are strings) or a nested table. -/
inductive CValue where
  | str (s : String)
  | table (t : CTable)
  deriving DecidableEq, Repr

/-- A string-keyed table of the merged schema, as an association list (the
crate uses an ordered map; `set` below preserves the no-duplicate-keys
invariant). -/
inductive CTable where
  | nil
  | cons (key : String) (value : CValue) (rest : CTable)
  deriving DecidableEq, Repr
end

namespace CTable

/-- First binding of a key, the map lookup. -/
def lookup : CTable → String → Option CValue
  | .nil, _ => none
  | .cons k v rest, key => if k = key then some v else rest.lookup key

/-- Map insertion: overwrite in place, else append at the end. -/
def set : CTable → String → CValue → CTable
  | .nil, key, val => .cons key val .nil
  | .cons k v rest, key, val =>
    if k = key then .cons key val rest else .cons k v (rest.set key val)

/-- List append on the table spine. -/
def append : CTable → CTable → CTable
  | .nil, t => t
  | .cons k v rest, t => .cons k v (rest.append t)

end CTable

mutual
/-- Well-formedness: no duplicate keys at any level of the tree. -/
def CValue.wfB : CValue → Bool
  | .str _ => true
  | .table t => t.wfB

/-- Well-formedness of a table: the head key does not recur, and all
values and the tail are well-formed. -/
def CTable.wfB : CTable → Bool
  | .nil => true
  | .cons k v rest => (rest.lookup k).isNone && v.wfB && rest.wfB
end

/-- Value lookup along a nested key path. -/
def CValue.atPath : CValue → List String → Option CValue
  | v, [] => some v
  | .table t, k :: rest =>
    match t.lookup k with
    | some v => v.atPath rest
    | none => none
  | .str _, _ :: _ => none

/-- Path lookup in a table. -/
def CTable.atPath (t : CTable) (p : List String) : Option CValue :=
  (CValue.table t).atPath p

/-- The `config` crate's path-expression `set`: writes a string value at a
nested key path, descending into existing subtables and replacing
non-table intermediates with fresh tables. -/
def CTable.setPath : CTable → List String → String → CTable
  | t, [], _ => t
  | t, [k], val => t.set k (.str val)
  | t, k :: k2 :: rest, val =>
    match t.lookup k with
    | some (.table sub) => t.set k (.table (sub.setPath (k2 :: rest) val))
    | _ => t.set k (.table (CTable.nil.setPath (k2 :: rest) val))

mutual
/-- The crate's merge of one source value over an existing one: two tables
merge recursively, anything else is replaced by the incoming value. -/
def CValue.mergeValue : CValue → CValue → CValue
  | .table bt, .table ot => .table (CTable.mergeTable bt ot)
  | _, o => o

/-- Applying an overlay source's bindings, in order, over a base table:
this is `add_source` followed by `build()` in the `config` crate, where
each collected property is deep-set into the accumulated cache. -/
def CTable.mergeTable : CTable → CTable → CTable
  | base, .nil => base
  | base, .cons k v rest =>
    CTable.mergeTable
      (match base.lookup k with
       | some bv => base.set k (CValue.mergeValue bv v)
       | none => base.set k v)
      rest
end

/-- One entry of the environment-variable source, per the `config` crate's
`Environment::collect`: the variable name is lowercased; it must start with
the lowercased `<prefix><prefix_separator>` pattern, which is stripped; a
non-empty key separator is replaced by `.`; the resulting dotted key is the
nested path. -/
def envEntry (pfx psep ksep : String) (kv : String × String) :
    Option (List String × String) :=
  let kl := (strToLower kv.1).data
  let pat := (strToLower (pfx ++ psep)).data
  if pat.isPrefixOf kl then
    let key := kl.drop pat.length
    let key :=
      if ksep.isEmpty then key else replaceList ksep.data ['.'] key
    some ((splitOnChar '.' key).map (fun l => (⟨l⟩ : String)), kv.2)
  else
    none

/-- The environment-variable source, collected from the ambient table of
process variables (iteration order of the table is part of the ambient
state): each matching entry is deep-set into an initially empty tree. -/
def envTree (pfx psep ksep : String) (table : List (String × String)) :
    CTable :=
  ((table.filterMap (envEntry pfx psep ksep)).foldl
    (fun t e => t.setPath e.1 e.2) CTable.nil)

/-- The merged schema of `build`: the file layer applied first, the
environment-variable layer applied second. -/
def mergedSchema (cfg : Config) (fileTree : CTable)
    (table : List (String × String)) : CTable :=
  CTable.mergeTable fileTree
    (envTree cfg.environment_variables_source_pfx
      cfg.environment_variables_source_pfx_separator
      cfg.environment_variables_source_separator table)

/-- Ambient process state read by `build`: `std::env::var` for the selector
variable, `std::env::current_dir`, the filesystem (keyed by the
extensionless derived path; `none` is an absent file, `Except.error` a file
the collaborator cannot parse, `Except.ok` the parsed tree), and the
process environment table scanned by the environment-variable source. -/
structure Ambient where
  getVar : String → VarResult
  cwd : Except Unit String
  fs : String → Option (Except Unit CTable)
  envTable : List (String × String)

/-- The file source with `required(false)`: an absent file contributes an
empty tree; a present but unparsable file is a collection error. -/
def loadFile (r : Option (Except Unit CTable)) : Except Unit CTable :=
  match r with
  | none => .ok .nil
  | some r => r

/-- `ConfigBuilder::build::<Cfg>`, with the typed deserializer passed as the
parameter `des` (the `try_deserialize` collaborator).  Follows
`src/lib.rs` step by step: prepare, resolve environment, working
directory, derived path, file source, environment-variable source, merge,
deserialize, each failure mapped to its `Reason`. -/
def build {T : Type} (des : CTable → Option T) (b : ConfigBuilder)
    (amb : Ambient) : Except Error T :=
  match b.prepare with
  | .error e => .error e
  | .ok cfg =>
    match resolveEnvironment (amb.getVar cfg.environment_variable_name) with
    | .error e => .error e
    | .ok env =>
      match amb.cwd with
      | .error _ => .error ⟨.workingDirectoryAccess⟩
      | .ok d =>
        let path :=
          pathJoin (pathJoin d cfg.config_directory) env.toString
        match loadFile (amb.fs path) with
        | .error _ => .error ⟨.composeSchema⟩
        | .ok fileTree =>
          match des (mergedSchema cfg fileTree amb.envTable) with
          | some t => .ok t
          | none => .error ⟨.deserialization⟩

/-! ## Basic lemmas about the table operations -/

/-- Induction over the spine of a table, leaving the stored values opaque
(the mutual recursor's value motive is unused by the list-shaped table
operations). -/
def CTable.spineInduction {motive : CTable → Prop} (hnil : motive .nil)
    (hcons : ∀ k v rest, motive rest → motive (.cons k v rest)) :
    ∀ t, motive t
  | .nil => hnil
  | .cons k v rest => hcons k v rest (spineInduction hnil hcons rest)

namespace CTable

theorem lookup_set_self (t : CTable) (k : String) (v : CValue) :
    (t.set k v).lookup k = some v := by
  induction t using CTable.spineInduction with
  | hnil => simp [set, lookup]
  | hcons k0 v0 rest ih =>
    by_cases h : k0 = k <;> simp [set, lookup, h, ih]

theorem lookup_set_ne (t : CTable) (k k' : String) (v : CValue)
    (h : k' ≠ k) : (t.set k v).lookup k' = t.lookup k' := by
  have hk : ¬k = k' := fun h' => h h'.symm
  induction t using CTable.spineInduction with
  | hnil => simp [set, lookup, hk]
  | hcons k0 v0 rest ih =>
    by_cases h0 : k0 = k
    · subst h0
      simp [set, lookup, hk]
    · by_cases h1 : k0 = k' <;> simp [set, lookup, h0, h1, h, ih]

theorem lookup_append (a b : CTable) (k : String) :
    (a.append b).lookup k =
      match a.lookup k with
      | some v => some v
      | none => b.lookup k := by
  induction a using CTable.spineInduction with
  | hnil => simp [append, lookup]
  | hcons k0 v0 rest ih =>
    by_cases h : k0 = k <;> simp [append, lookup, h, ih]

theorem set_eq_append (t : CTable) (k : String) (v : CValue)
    (h : t.lookup k = none) : t.set k v = t.append (.cons k v .nil) := by
  induction t using CTable.spineInduction with
  | hnil => simp [set, append]
  | hcons k0 v0 rest ih =>
    simp only [lookup] at h
    by_cases h0 : k0 = k
    · simp [h0] at h
    · simp [h0] at h
      simp [set, append, h0, ih h]

end CTable

theorem CTable.wfB_set (t : CTable) (k : String) (v : CValue)
    (ht : t.wfB = true) (hv : v.wfB = true) : (t.set k v).wfB = true := by
  induction t using CTable.spineInduction with
  | hnil => simp [set, wfB, CValue.wfB, lookup, hv]
  | hcons k0 v0 rest ih =>
    simp only [wfB, Bool.and_eq_true] at ht
    obtain ⟨⟨hk0, hv0⟩, hrest⟩ := ht
    by_cases h0 : k0 = k
    · subst h0
      simp [set, wfB, hk0, hv, hrest]
    · simp [set, h0, wfB, lookup_set_ne rest k k0 v h0, hk0, hv0,
        ih hrest]

theorem CTable.wfB_lookup (t : CTable) (k : String) (v : CValue)
    (ht : t.wfB = true) (h : t.lookup k = some v) : v.wfB = true := by
  induction t using CTable.spineInduction with
  | hnil => simp [lookup] at h
  | hcons k0 v0 rest ih =>
    simp only [wfB, Bool.and_eq_true] at ht
    obtain ⟨⟨hk0, hv0⟩, hrest⟩ := ht
    simp only [lookup] at h
    by_cases h0 : k0 = k
    · simp [h0] at h
      exact h ▸ hv0
    · simp [h0] at h
      exact ih hrest h

theorem CTable.wfB_setPath (t : CTable) (p : List String) (val : String)
    (ht : t.wfB = true) : (t.setPath p val).wfB = true := by
  induction p generalizing t with
  | nil => simpa [setPath] using ht
  | cons k p' ih =>
    cases p' with
    | nil =>
      simpa [setPath] using wfB_set t k (.str val) ht (by simp [CValue.wfB])
    | cons k2 rest =>
      simp only [setPath]
      cases hlk : t.lookup k with
      | none =>
        exact wfB_set t k _ ht (by simpa [CValue.wfB] using ih .nil rfl)
      | some v =>
        cases v with
        | str s =>
          exact wfB_set t k _ ht (by simpa [CValue.wfB] using ih .nil rfl)
        | table sub =>
          refine wfB_set t k _ ht ?_
          simpa [CValue.wfB] using ih sub (wfB_lookup t k _ ht hlk)

theorem CTable.wfB_foldl_setPath (l : List (List String × String))
    (acc : CTable) (hacc : acc.wfB = true) :
    (l.foldl (fun t e => t.setPath e.1 e.2) acc).wfB = true := by
  induction l generalizing acc with
  | nil => simpa using hacc
  | cons e l' ih =>
    exact ih _ (wfB_setPath acc e.1 e.2 hacc)

theorem wfB_envTree (pfx psep ksep : String)
    (table : List (String × String)) :
    (envTree pfx psep ksep table).wfB = true :=
  CTable.wfB_foldl_setPath _ _ rfl

/-! ## Lemmas about the deep merge -/

/-- Lookup in a merged table: an overlay binding wins, merged with the base
binding when both are present with `mergeValue`, while keys the overlay
does not bind keep their base value.  The overlay is required to have
no duplicate top-level keys, which `wfB` guarantees. -/
theorem CTable.lookup_mergeTable (overlay base : CTable) (k : String)
    (hwf : overlay.wfB = true) :
    (CTable.mergeTable base overlay).lookup k =
      match overlay.lookup k with
      | none => base.lookup k
      | some ov =>
        some
          (match base.lookup k with
           | some bv => CValue.mergeValue bv ov
           | none => ov) := by
  induction overlay using CTable.spineInduction generalizing base with
  | hnil => simp [mergeTable, lookup]
  | hcons k0 v0 rest ih =>
    simp only [wfB, Bool.and_eq_true] at hwf
    obtain ⟨⟨hk0, _⟩, hrest⟩ := hwf
    simp only [mergeTable]
    rw [ih _ hrest]
    by_cases h : k0 = k
    · subst h
      rw [Option.isNone_iff_eq_none] at hk0
      cases hb : base.lookup k0 <;>
        simp [lookup, hk0, hb, lookup_set_self]
    · have hlookup :
          (match base.lookup k0 with
           | some bv => base.set k0 (CValue.mergeValue bv v0)
           | none => base.set k0 v0).lookup k =
            base.lookup k := by
        cases hb : base.lookup k0 <;>
          simp [lookup_set_ne _ _ _ _ (fun h' => h h'.symm)]
      rw [hlookup]
      simp [lookup, h]

/-- A string leaf present in the overlay at some nested path survives the
merge: the merged schema holds exactly the overlay's value there. -/
theorem CTable.atPath_mergeTable_str (p : List String)
    (base overlay : CTable) (v : String)
    (hwf : overlay.wfB = true)
    (h : overlay.atPath p = some (.str v)) :
    (CTable.mergeTable base overlay).atPath p = some (.str v) := by
  induction p generalizing base overlay with
  | nil => simp [atPath, CValue.atPath] at h
  | cons k rest ih =>
    simp only [atPath, CValue.atPath] at h ⊢
    cases hov : overlay.lookup k with
    | none => simp [hov] at h
    | some ov =>
      rw [hov] at h
      rw [lookup_mergeTable overlay base k hwf, hov]
      cases hb : base.lookup k with
      | none =>
        simpa using h
      | some bv =>
        cases rest with
        | nil =>
          simp only [CValue.atPath] at h
          cases ov with
          | str s =>
            cases h
            cases bv <;> simp [CValue.mergeValue, CValue.atPath]
          | table ot => simp at h
        | cons r rest' =>
          cases ov with
          | str s => simp [CValue.atPath] at h
          | table ot =>
            have hotwf : ot.wfB = true := by
              have := wfB_lookup overlay k _ hwf hov
              simpa [CValue.wfB] using this
            cases bv with
            | str s =>
              simpa [CValue.mergeValue, CValue.atPath] using h
            | table bt =>
              simp only [CValue.mergeValue, CValue.atPath]
              simp only [CValue.atPath] at h
              exact ih bt ot hotwf h

/-- Merging an overlay whose keys are all absent from the accumulated base
appends it: no binding is rewritten or reordered. -/
theorem CTable.mergeTable_disjoint (overlay acc : CTable)
    (hwf : overlay.wfB = true)
    (hdisj : ∀ key, (overlay.lookup key).isSome → acc.lookup key = none) :
    CTable.mergeTable acc overlay = acc.append overlay := by
  have happnil : ∀ a : CTable, a.append .nil = a := by
    intro a
    induction a using CTable.spineInduction with
    | hnil => simp [append]
    | hcons ka va ra iha => simp [append, iha]
  induction overlay using CTable.spineInduction generalizing acc with
  | hnil => simp [mergeTable, happnil]
  | hcons k0 v0 rest ih =>
    simp only [wfB, Bool.and_eq_true] at hwf
    obtain ⟨⟨hk0, _⟩, hrest⟩ := hwf
    rw [Option.isNone_iff_eq_none] at hk0
    have hacc0 : acc.lookup k0 = none := by
      refine hdisj k0 ?_
      simp [lookup]
    simp only [mergeTable, hacc0]
    rw [set_eq_append acc k0 v0 hacc0]
    rw [ih (acc.append (.cons k0 v0 .nil)) hrest ?_]
    · have happ :
          ∀ a b c : CTable, (a.append b).append c = a.append (b.append c) := by
        intro a b c
        induction a using CTable.spineInduction with
        | hnil => simp [append]
        | hcons ka va ra iha => simp [append, iha]
      rw [happ]
      simp [append]
    · intro key hkey
      have hkne : key ≠ k0 := by
        intro hh
        subst hh
        rw [hk0] at hkey
        simp at hkey
      have hacckey : acc.lookup key = none := by
        refine hdisj key ?_
        simp only [lookup]
        by_cases hkk : k0 = key
        · exact absurd hkk.symm hkne
        · simpa [hkk] using hkey
      have hk0ne : ¬k0 = key := fun h => hkne h.symm
      rw [lookup_append]
      simp [hacckey, lookup, hk0ne]

/-- Merging a well-formed overlay over the empty base gives the overlay:
with no file layer, the merged schema is the environment layer alone. -/
theorem CTable.mergeTable_nil (overlay : CTable) (hwf : overlay.wfB = true) :
    CTable.mergeTable CTable.nil overlay = overlay := by
  rw [mergeTable_disjoint overlay .nil hwf (by intro key _; simp [lookup])]
  simp [append]

/-! ## Helper facts about resolution and path derivation -/

/-- The only error the resolution step can produce is
`EnvironmentVariableParsing` carrying the raw selector value. -/
theorem resolveEnvironment_error (r : VarResult) (e : Error)
    (h : resolveEnvironment r = .error e) :
    ∃ s, r = .present s ∧ e = ⟨.environmentVariableParsing s⟩ := by
  cases r with
  | present s =>
    refine ⟨s, rfl, ?_⟩
    simp only [resolveEnvironment] at h
    cases hf : Environment.fromStr s <;> rw [hf] at h <;>
      simp_all
  | notPresent => simp [resolveEnvironment] at h
  | notUnicode => simp [resolveEnvironment] at h

/-- Rendered environment names are relative path components. -/
theorem Environment.toString_not_absolute (e : Environment) :
    strStartsWith "/" e.toString = false := by
  cases e <;> decide

/-- Exhaustive error analysis of `build`: an error is either the resolution
step's own error, propagated unchanged, or one of the fixed reasons of the
later steps. -/
theorem build_error_cases {T : Type} (des : CTable → Option T)
    (b : ConfigBuilder) (amb : Ambient) (e : Error)
    (h : build des b amb = .error e) :
    resolveEnvironment (amb.getVar b.finalize.environment_variable_name) =
        .error e ∨
      e = ⟨.workingDirectoryAccess⟩ ∨ e = ⟨.composeSchema⟩ ∨
        e = ⟨.deserialization⟩ := by
  simp only [build, ConfigBuilder.prepare] at h
  cases hres :
      resolveEnvironment (amb.getVar b.finalize.environment_variable_name) with
  | error e' =>
    simp only [hres, Except.error.injEq] at h
    exact Or.inl (by rw [h])
  | ok env =>
    simp only [hres] at h
    cases hcwd : amb.cwd with
    | error u =>
      simp only [hcwd, Except.error.injEq] at h
      exact Or.inr (Or.inl h.symm)
    | ok d =>
      simp only [hcwd] at h
      cases hf : loadFile (amb.fs
          (pathJoin (pathJoin d b.finalize.config_directory)
            env.toString)) with
      | error u =>
        simp only [hf, Except.error.injEq] at h
        exact Or.inr (Or.inr (Or.inl h.symm))
      | ok fileTree =>
        simp only [hf] at h
        cases hd : des (mergedSchema b.finalize fileTree amb.envTable) with
        | some t => simp only [hd] at h; simp at h
        | none =>
          simp only [hd, Except.error.injEq] at h
          exact Or.inr (Or.inr (Or.inr h.symm))

/-! ## The claims -/

/-- C7.  Every one of the five composition-option fields is independently
defaulted: `prepare` succeeds on any builder with each unset field replaced
by its default (`APP_ENV`, `config`, `APP`, `_`, `__`), so the untouched
builder finalizes to exactly the record of the five defaults, and setting
any subset of fields leaves the other defaults unchanged. -/
theorem builder_defaults (b : ConfigBuilder) :
    b.prepare = .ok
      { environment_variable_name := b.environment_variable_name.getD "APP_ENV",
        config_directory := b.config_directory.getD "config",
        environment_variables_source_pfx :=
          b.environment_variables_source_pfx.getD "APP",
        environment_variables_source_pfx_separator :=
          b.environment_variables_source_pfx_separator.getD "_",
        environment_variables_source_separator :=
          b.environment_variables_source_separator.getD "__" } ∧
      ConfigBuilder.prepare {} = .ok ⟨"APP_ENV", "config", "APP", "_", "__"⟩ :=
  ⟨rfl, rfl⟩

/-- C8.  Options finalization succeeds for every builder value, so the
`Error(Preparation)` branch of `build` is unreachable: `build` never
returns a `Preparation` error. -/
theorem build_never_preparation_error {T : Type} (des : CTable → Option T)
    (b : ConfigBuilder) (amb : Ambient) :
    (∃ cfg, b.prepare = .ok cfg) ∧
      build des b amb ≠ .error ⟨.preparation⟩ := by
  refine ⟨⟨b.finalize, rfl⟩, ?_⟩
  simp only [build, ConfigBuilder.prepare]
  cases hres :
      resolveEnvironment (amb.getVar b.finalize.environment_variable_name) with
  | error e =>
    obtain ⟨s, _, rfl⟩ := resolveEnvironment_error _ _ hres
    simp
  | ok env =>
    cases hcwd : amb.cwd with
    | error u => simp
    | ok d =>
      cases hf : loadFile (amb.fs
          (pathJoin (pathJoin d b.finalize.config_directory)
            env.toString)) with
      | error u => simp [hf]
      | ok fileTree =>
        cases hd : des (mergedSchema b.finalize fileTree amb.envTable) <;>
          simp [hf, hd]

/-- C1.  For every key path present in both the file source and the
environment-variable source, the merged schema contains the
environment-variable value: the composer applies the file source first and
the environment-variable source second, and the merge is structural over
nested keys, so an equal-key environment-variable leaf always wins. -/
theorem env_override_wins (cfg : Config) (fileTree : CTable)
    (table : List (String × String)) (p : List String) (v : String)
    (w : CValue)
    (_hfile : fileTree.atPath p = some w)
    (henv :
      (envTree cfg.environment_variables_source_pfx
        cfg.environment_variables_source_pfx_separator
        cfg.environment_variables_source_separator table).atPath p =
        some (.str v)) :
    (mergedSchema cfg fileTree table).atPath p = some (.str v) :=
  CTable.atPath_mergeTable_str p fileTree _ v (wfB_envTree _ _ _ _) henv

/-- Witness for C1: with the default options, file value `bar.baz = "1"`
and override `APP_BAR__BAZ=777`, the merged schema holds `"777"` at
`bar.baz`. -/
theorem env_override_wins_witness :
    (CTable.setPath .nil ["bar", "baz"] "1").atPath ["bar", "baz"] =
        some (.str "1") ∧
      (envTree "APP" "_" "__" [("APP_BAR__BAZ", "777")]).atPath
          ["bar", "baz"] = some (.str "777") ∧
      (mergedSchema (ConfigBuilder.finalize {})
          (CTable.setPath .nil ["bar", "baz"] "1")
          [("APP_BAR__BAZ", "777")]).atPath ["bar", "baz"] =
        some (.str "777") :=
  ⟨rfl, rfl,
    env_override_wins (ConfigBuilder.finalize {}) _ _ ["bar", "baz"] "777"
      (.str "1") rfl rfl⟩

/-- C2.  When the configured selector variable is not set, environment
resolution returns the default variant `Local`, and the composition call
never fails with the resolution step's error. -/
theorem unset_selector_defaults_local {T : Type} (des : CTable → Option T)
    (b : ConfigBuilder) (amb : Ambient)
    (h : amb.getVar b.finalize.environment_variable_name = .notPresent) :
    resolveEnvironment (amb.getVar b.finalize.environment_variable_name) =
        .ok .Local ∧
      ∀ s, build des b amb ≠ .error ⟨.environmentVariableParsing s⟩ := by
  constructor
  · rw [h]
    rfl
  · intro s hcontra
    rcases build_error_cases des b amb _ hcontra with hr | hr | hr | hr
    · rw [h] at hr
      exact absurd hr (by simp [resolveEnvironment])
    · simp at hr
    · simp at hr
    · simp at hr

/-- Witness for C2: the default builder with an empty process environment
resolves to `Local` and produces no `EnvironmentVariableParsing` error. -/
theorem unset_selector_defaults_local_witness :
    (⟨fun _ => .notPresent, .ok ".", fun _ => none, []⟩ : Ambient).getVar
        (ConfigBuilder.finalize {}).environment_variable_name =
        .notPresent ∧
      (resolveEnvironment
          ((⟨fun _ => .notPresent, .ok ".", fun _ => none, []⟩ :
            Ambient).getVar
            (ConfigBuilder.finalize {}).environment_variable_name) =
          .ok .Local ∧
        ∀ s,
          build (fun t => some t) {}
              ⟨fun _ => .notPresent, .ok ".", fun _ => none, []⟩ ≠
            .error ⟨.environmentVariableParsing s⟩) :=
  ⟨rfl, unset_selector_defaults_local (fun t => some t) {} _ rfl⟩

/-- C3.  A set selector value is matched exactly and case-sensitively
against the snake-case variant names: `"local"` and `"production"` resolve
to their variants, and any other string makes the whole composition fail
with `EnvironmentVariableParsing` carrying the offending raw string. -/
theorem selector_exact_match {T : Type} (des : CTable → Option T)
    (b : ConfigBuilder) (amb : Ambient) (s : String)
    (h : amb.getVar b.finalize.environment_variable_name = .present s) :
    (s = "local" →
      resolveEnvironment
          (amb.getVar b.finalize.environment_variable_name) =
        .ok .Local) ∧
      (s = "production" →
        resolveEnvironment
            (amb.getVar b.finalize.environment_variable_name) =
          .ok .Production) ∧
      (s ≠ "local" → s ≠ "production" →
        build des b amb = .error ⟨.environmentVariableParsing s⟩) := by
  refine ⟨?_, ?_, ?_⟩
  · intro hs
    subst hs
    rw [h]
    rfl
  · intro hs
    subst hs
    rw [h]
    rfl
  · intro h1 h2
    have hres :
        resolveEnvironment
            (amb.getVar b.finalize.environment_variable_name) =
          .error ⟨.environmentVariableParsing s⟩ := by
      rw [h]
      simp [resolveEnvironment, Environment.fromStr, h1, h2]
    simp only [build, ConfigBuilder.prepare, hres]

/-- Witness for C3: `APP_ENV=staging` fails the composition with
`EnvironmentVariableParsing("staging")`. -/
theorem selector_exact_match_witness :
    (⟨fun _ => .present "staging", .ok ".", fun _ => none, []⟩ :
          Ambient).getVar
        (ConfigBuilder.finalize {}).environment_variable_name =
        .present "staging" ∧
      build (fun t => some t) {}
          ⟨fun _ => .present "staging", .ok ".", fun _ => none, []⟩ =
        .error ⟨.environmentVariableParsing "staging"⟩ :=
  ⟨rfl,
    (selector_exact_match (fun t => some t) {}
          ⟨fun _ => .present "staging", .ok ".", fun _ => none, []⟩
          "staging" rfl).2.2
      (by decide) (by decide)⟩

/-- C4.  Composition is deterministic in its inputs: two `build` calls with
equal builders and equal ambient state (working directory, filesystem,
process environment table) return equal results; `build` is a pure reader
of the ambient state, so it performs no writes. -/
theorem build_deterministic {T : Type} (des : CTable → Option T)
    (b₁ b₂ : ConfigBuilder) (a₁ a₂ : Ambient)
    (hb : b₁ = b₂) (ha : a₁ = a₂) :
    build des b₁ a₁ = build des b₂ a₂ := by
  subst hb
  subst ha
  rfl

/-- Witness for C4 at a concrete builder and ambient state. -/
theorem build_deterministic_witness :
    build (fun t => some t) {}
        ⟨fun _ => .notPresent, .ok ".", fun _ => none, []⟩ =
      build (fun t => some t) {}
        ⟨fun _ => .notPresent, .ok ".", fun _ => none, []⟩ :=
  build_deterministic (fun t => some t) {} {}
    ⟨fun _ => .notPresent, .ok ".", fun _ => none, []⟩
    ⟨fun _ => .notPresent, .ok ".", fun _ => none, []⟩ rfl rfl

/-- C5.  Absence of the environment file at the derived path is never by
itself a cause of failure: with the file absent, the result is exactly the
deserialization of the environment-variable layer alone, so the call
succeeds whenever that layer satisfies the deserializer. -/
theorem file_absence_not_fatal {T : Type} (des : CTable → Option T)
    (b : ConfigBuilder) (amb : Ambient) (env : Environment) (d : String)
    (henv :
      resolveEnvironment (amb.getVar b.finalize.environment_variable_name) =
        .ok env)
    (hcwd : amb.cwd = .ok d)
    (habsent :
      amb.fs (pathJoin (pathJoin d b.finalize.config_directory)
        env.toString) = none) :
    build des b amb =
      match des (envTree b.finalize.environment_variables_source_pfx
          b.finalize.environment_variables_source_pfx_separator
          b.finalize.environment_variables_source_separator
          amb.envTable) with
      | some t => .ok t
      | none => .error ⟨.deserialization⟩ := by
  simp only [build, ConfigBuilder.prepare, henv, hcwd, habsent, loadFile]
  simp only [mergedSchema]
  rw [CTable.mergeTable_nil _ (wfB_envTree _ _ _ _)]

/-- Witness for C5: an absent file with override `APP_BAR__BAZ=777` still
composes, producing the environment layer alone. -/
theorem file_absence_not_fatal_witness :
    resolveEnvironment
        ((⟨fun _ => .notPresent, .ok ".", fun _ => none,
            [("APP_BAR__BAZ", "777")]⟩ : Ambient).getVar
          (ConfigBuilder.finalize {}).environment_variable_name) =
        .ok Environment.defaultEnv ∧
      (⟨fun _ => .notPresent, .ok ".", fun _ => none,
          [("APP_BAR__BAZ", "777")]⟩ : Ambient).cwd = .ok "." ∧
      (⟨fun _ => .notPresent, .ok ".", fun _ => none,
          [("APP_BAR__BAZ", "777")]⟩ : Ambient).fs "./config/local" =
        none ∧
      build (fun t => t.atPath ["bar", "baz"]) {}
          ⟨fun _ => .notPresent, .ok ".", fun _ => none,
            [("APP_BAR__BAZ", "777")]⟩ =
        .ok (.str "777") := by
  refine ⟨rfl, rfl, rfl, ?_⟩
  rw [file_absence_not_fatal (fun t => t.atPath ["bar", "baz"]) {}
    ⟨fun _ => .notPresent, .ok ".", fun _ => none,
      [("APP_BAR__BAZ", "777")]⟩ Environment.defaultEnv "." rfl rfl rfl]
  rfl

/-- C6.  The file-source path handed to the file-loading collaborator is
exactly `<cwd>/<config_directory>/<environment_name>`, with no extension
appended by the composer: `build` depends on the filesystem only through
its value at that one string (for a relative configured directory). -/
theorem file_path_derivation {T : Type} (des : CTable → Option T)
    (b : ConfigBuilder) (amb : Ambient) (env : Environment) (d : String)
    (henv :
      resolveEnvironment (amb.getVar b.finalize.environment_variable_name) =
        .ok env)
    (hcwd : amb.cwd = .ok d)
    (hrel : strStartsWith "/" b.finalize.config_directory = false)
    (f g : String → Option (Except Unit CTable))
    (hfg :
      f (d ++ "/" ++ b.finalize.config_directory ++ "/" ++ env.toString) =
        g (d ++ "/" ++ b.finalize.config_directory ++ "/" ++
          env.toString)) :
    build des b ⟨amb.getVar, amb.cwd, f, amb.envTable⟩ =
      build des b ⟨amb.getVar, amb.cwd, g, amb.envTable⟩ := by
  have hpath :
      pathJoin (pathJoin d b.finalize.config_directory) env.toString =
        d ++ "/" ++ b.finalize.config_directory ++ "/" ++ env.toString := by
    simp [pathJoin, hrel, Environment.toString_not_absolute]
  simp only [build, ConfigBuilder.prepare, henv, hcwd, hpath, hfg]

/-- Witness for C6 with the default options and environment `Local`: the
path consulted is `./config/local`. -/
theorem file_path_derivation_witness :
    resolveEnvironment
        ((⟨fun _ => .notPresent, .ok ".", fun _ => none, []⟩ :
          Ambient).getVar
          (ConfigBuilder.finalize {}).environment_variable_name) =
        .ok Environment.defaultEnv ∧
      strStartsWith "/" (ConfigBuilder.finalize {}).config_directory =
        false ∧
      build (fun t => some t) {}
          ⟨fun _ => .notPresent, .ok ".",
            fun p =>
              if p = "./config/local" then
                some (.ok (CTable.setPath .nil ["k"] "v"))
              else none,
            []⟩ =
        build (fun t => some t) {}
          ⟨fun _ => .notPresent, .ok ".",
            fun _ => some (.ok (CTable.setPath .nil ["k"] "v")), []⟩ := by
  refine ⟨rfl, rfl, ?_⟩
  exact file_path_derivation (fun t => some t) {}
    ⟨fun _ => .notPresent, .ok ".", fun _ => none, []⟩
    Environment.defaultEnv "." rfl rfl rfl
    (fun p =>
      if p = "./config/local" then
        some (.ok (CTable.setPath .nil ["k"] "v"))
      else none)
    (fun _ => some (.ok (CTable.setPath .nil ["k"] "v")))
    (by rfl)

/-- C9.  Environment-to-string and string-to-environment conversion form a
bidirectional mapping on the fixed variant set: parsing the rendered token
of any variant yields the variant back, and a string parses to a variant
exactly when it is that variant's rendered token, so only `"local"` and
`"production"` parse. -/
theorem environment_string_mapping (e : Environment) (s : String) :
    Environment.fromStr e.toString = some e ∧
      (Environment.fromStr s = some e ↔ s = e.toString) := by
  constructor
  · cases e <;> decide
  · constructor
    · intro h
      simp only [Environment.fromStr] at h
      split_ifs at h with h1 h2
      · cases h
        exact h1
      · cases h
        exact h2
    · intro h
      subst h
      cases e <;> decide

/-- Witness for C9 at the concrete variant `Production` and the string
`"production"`. -/
theorem environment_string_mapping_witness :
    Environment.fromStr Environment.Production.toString =
        some Environment.Production ∧
      (Environment.fromStr "production" = some Environment.Production ↔
        "production" = Environment.Production.toString) :=
  environment_string_mapping Environment.Production "production"

/-- Witness for C8: the untouched builder on an empty environment prepares
successfully and `build` does not return a `Preparation` error. -/
theorem build_never_preparation_error_witness :
    (∃ cfg, ConfigBuilder.prepare {} = .ok cfg) ∧
      build (fun t => some t) {}
          ⟨fun _ => .notPresent, .ok ".", fun _ => none, []⟩ ≠
        .error ⟨.preparation⟩ :=
  build_never_preparation_error (fun t => some t) {}
    ⟨fun _ => .notPresent, .ok ".", fun _ => none, []⟩

/-- C10.  A selector variable that is set but not valid Unicode is treated
exactly as if it were unset: `std::env::var` reports it as an error, every
read error takes the `Err(_)` arm, so resolution silently yields the
default `Local` and the whole composition behaves as with the variable
absent. -/
theorem non_unicode_selector_as_unset {T : Type} (des : CTable → Option T)
    (b : ConfigBuilder) (amb : Ambient)
    (h : amb.getVar b.finalize.environment_variable_name = .notUnicode) :
    resolveEnvironment (amb.getVar b.finalize.environment_variable_name) =
        .ok .Local ∧
      build des b amb =
        build des b ⟨fun _ => .notPresent, amb.cwd, amb.fs, amb.envTable⟩ := by
  constructor
  · rw [h]
    rfl
  · simp only [build, ConfigBuilder.prepare, h]
    rfl

/-- Witness for C10: a non-Unicode selector value yields `Local` and the
same composition result as an absent selector. -/
theorem non_unicode_selector_as_unset_witness :
    (⟨fun _ => .notUnicode, .ok ".", fun _ => none, []⟩ : Ambient).getVar
        (ConfigBuilder.finalize {}).environment_variable_name =
        .notUnicode ∧
      (resolveEnvironment
          ((⟨fun _ => .notUnicode, .ok ".", fun _ => none, []⟩ :
            Ambient).getVar
            (ConfigBuilder.finalize {}).environment_variable_name) =
          .ok .Local ∧
        build (fun t => some t) {}
            ⟨fun _ => .notUnicode, .ok ".", fun _ => none, []⟩ =
          build (fun t => some t) {}
            ⟨fun _ => .notPresent, .ok ".", fun _ => none, []⟩) :=
  ⟨rfl,
    non_unicode_selector_as_unset (fun t => some t) {}
      ⟨fun _ => .notUnicode, .ok ".", fun _ => none, []⟩ rfl⟩

end Cfgio
